import Mathlib

/-!
Verification of the row-by-row PNG decoder (`reader.go`) of this repository.

The decoder's byte stream is modelled as a `List Nat` whose elements are byte
values; machine `uint8`/`uint32` arithmetic is modelled on `Nat` with explicit
`% 2^w`, and Go's platform-sized signed `int` is modelled on `Int` with an
explicit two's-complement wrap parametrised by the platform word size
(`intBits`, 32 or 64).
-/

namespace Png

/-- Color type, as per the PNG spec (`ctTrueColorAlpha` in reader.go). -/
def ctTrueColorAlpha : Nat := 6

/-- Combination of color type and bit depth: invalid marker. -/
def cbInvalid : Nat := 0

/-- Combination of color type and bit depth: 8-bit truecolor with alpha. -/
def cbTCA8 : Nat := 1

/-- Decoding stages, as in reader.go. -/
def dsStart : Nat := 0

def dsSeenIHDR : Nat := 1

def dsSeenIDAT : Nat := 2

def dsSeenIEND : Nat := 3

/-- The 8-byte PNG file signature (`pngHeader` in reader.go). -/
def pngHeaderBytes : List Nat := [0x89, 0x50, 0x4e, 0x47, 0x0d, 0x0a, 0x1a, 0x0a]

/-- Errors surfaced by the decoder: `FormatError`, `UnsupportedError`, the
generic error built by `fmt.Errorf`, and the two io sentinel errors. -/
inductive PNGError where
  | formatError (s : String)
  | unsupportedError (s : String)
  | genericError (s : String)
  | eof
  | unexpectedEOF
deriving DecidableEq

/-- The value `chunkOrderError` in reader.go. -/
def chunkOrderError : PNGError := .formatError "chunk out of order"

/-- Go's `binary.BigEndian.Uint32` on the first four bytes of a list. -/
def beUint32 (bs : List Nat) : Nat :=
  bs.getD 0 0 * 2 ^ 24 + bs.getD 1 0 * 2 ^ 16 + bs.getD 2 0 * 2 ^ 8 + bs.getD 3 0

/-- Go's `string(...)` conversion of a byte slice, used for chunk type tags. -/
def tagString (bs : List Nat) : String := String.mk (bs.map Char.ofNat)

/-- Two's-complement wrap of an integer to `bits` bits: Go's conversion to a
signed `bits`-wide integer. -/
def wrapInt (bits : Nat) (x : Int) : Int :=
  (x + 2 ^ (bits - 1)) % 2 ^ bits - 2 ^ (bits - 1)

/-- Go's `io.ReadFull` on a list-backed stream: returns the first `n` bytes and the
rest, `io.EOF` if the stream is empty, `io.ErrUnexpectedEOF` on a short read. -/
def readFull (r : List Nat) (n : Nat) : Except PNGError (List Nat × List Nat) :=
  if n ≤ r.length then .ok (r.take n, r.drop n)
  else if r.length = 0 then .error .eof
  else .error .unexpectedEOF

/-- The CRC-32 (IEEE) reflected polynomial. -/
def crc32Poly : Nat := 0xedb88320

/-- One bit-step of the reflected CRC-32 computation. -/
def crc32Bit (c : Nat) : Nat :=
  if c % 2 = 1 then (c / 2) ^^^ crc32Poly else c / 2

/-- Feed one byte into the raw (pre-complement) CRC-32 state. -/
def crc32Byte (c b : Nat) : Nat := crc32Bit^[8] (c ^^^ b % 256)

/-- The `hash/crc32` digest update (IEEE): the digest field stores the finalized
checksum, so a write complements, folds the bytes, and complements back.
`Sum32` returns the stored field itself; `Reset` stores 0. -/
def crcUpdate (crc : Nat) (p : List Nat) : Nat :=
  p.foldl crc32Byte (crc ^^^ 0xffffffff) ^^^ 0xffffffff

/-- The `decoder` struct of reader.go, restricted to the fields the decode
paths use (`img`, `palette`, `interlace`, `useTransparent`, `transparent` and
the scratch buffer `tmp` play no role in the modelled code). `r` is the
remaining input stream, `crc` the CRC-32 digest value (`Sum32`). -/
structure decoder where
  r : List Nat
  crc : Nat := 0
  width : Nat := 0
  height : Nat := 0
  depth : Nat := 0
  cb : Nat := 0
  stage : Nat := 0
  idatLength : Nat := 0
deriving DecidableEq

/-- The method `decoder.verifyChecksum`: read 4 bytes and compare them, big-endian,
against the running digest. -/
def verifyChecksum (d : decoder) : Except PNGError decoder :=
  match readFull d.r 4 with
  | .error e => .error e
  | .ok (bs, rest) =>
    if beUint32 bs ≠ d.crc then .error (.formatError "invalid checksum")
    else .ok { d with r := rest }

/-- The method `decoder.checkHeader`: read 8 bytes and require the PNG signature. -/
def checkHeader (d : decoder) : Except PNGError decoder :=
  match readFull d.r 8 with
  | .error e => .error e
  | .ok (bs, rest) =>
    if bs ≠ pngHeaderBytes then .error (.formatError "not a PNG file")
    else .ok { d with r := rest }

/-! ## The in-place filter loops

Each scanline filter in `DecodeRow` is a left-to-right in-place loop over the
row buffer.  `rowLoopAux`/`rowLoop` model such a loop: starting at index `i`
and stopping at index `n`, each step replaces element `i` with `f i c` where
`c` is the current state of the buffer (so `f` can read both the not yet
processed element `c.getD i 0` and the already updated elements to its left).
-/

def rowLoopAux (f : Nat → List Nat → Nat) (c : List Nat) (i : Nat) : Nat → List Nat
  | 0 => c
  | k + 1 => rowLoopAux f (c.set i (f i c)) (i + 1) k

/-- The loop `for idx := i; idx < n; idx++ { c[idx] = f idx c }`. -/
def rowLoop (f : Nat → List Nat → Nat) (c : List Nat) (i n : Nat) : List Nat :=
  rowLoopAux f c i (n - i)

theorem rowLoopAux_length (f : Nat → List Nat → Nat) (c : List Nat) (i k : Nat) :
    (rowLoopAux f c i k).length = c.length := by
  induction k generalizing c i with
  | zero => rfl
  | succ k ih => simp [rowLoopAux, ih]

theorem rowLoop_length (f : Nat → List Nat → Nat) (c : List Nat) (i n : Nat) :
    (rowLoop f c i n).length = c.length := rowLoopAux_length f c i (n - i)

theorem rowLoopAux_getD_of_lt (f : Nat → List Nat → Nat) (c : List Nat) (i k j : Nat)
    (h : j < i) : (rowLoopAux f c i k).getD j 0 = c.getD j 0 := by
  induction k generalizing c i with
  | zero => rfl
  | succ k ih =>
    rw [rowLoopAux, ih _ _ (Nat.lt_succ_of_lt h)]
    simp [List.getD, List.getElem?_set_ne (Nat.ne_of_gt h)]

/-- The loop touches only indices in `[i, n)`. -/
theorem rowLoop_getD_of_lt (f : Nat → List Nat → Nat) (c : List Nat) (i n j : Nat)
    (h : j < i) : (rowLoop f c i n).getD j 0 = c.getD j 0 :=
  rowLoopAux_getD_of_lt f c i (n - i) j h

theorem rowLoopAux_split (f : Nat → List Nat → Nat) (c : List Nat) (i k m : Nat)
    (h : m ≤ k) :
    rowLoopAux f c i k = rowLoopAux f (rowLoopAux f c i m) (i + m) (k - m) := by
  induction m generalizing c i k with
  | zero => simp [rowLoopAux]
  | succ m ih =>
    match k, h with
    | k + 1, h =>
      rw [rowLoopAux, ih (c.set i (f i c)) (i + 1) k (Nat.le_of_succ_le_succ h)]
      simp only [rowLoopAux, Nat.succ_sub_succ]
      congr 1
      omega

/-- Splitting the loop at an intermediate index `j`. -/
theorem rowLoop_split (f : Nat → List Nat → Nat) (c : List Nat) (i n j : Nat)
    (h1 : i ≤ j) (h2 : j ≤ n) :
    rowLoop f c i n = rowLoop f (rowLoop f c i j) j n := by
  have hm : j - i ≤ n - i := Nat.sub_le_sub_right h2 i
  have key := rowLoopAux_split f c i (n - i) (j - i) hm
  rw [rowLoop, rowLoop, rowLoop, key, Nat.add_sub_cancel' h1]
  congr 1
  omega

/-- The value the loop leaves at an index `j` it processes: `f j` applied to
the state of the buffer just before step `j` runs, i.e. `rowLoop f c i j`. -/
theorem rowLoop_getD_at (f : Nat → List Nat → Nat) (c : List Nat) (i n j : Nat)
    (h1 : i ≤ j) (h2 : j < n) (h3 : j < c.length) :
    (rowLoop f c i n).getD j 0 = f j (rowLoop f c i j) := by
  rw [rowLoop_split f c i n j h1 (Nat.le_of_lt h2)]
  have hlen : j < (rowLoop f c i j).length := by rw [rowLoop_length]; exact h3
  rw [rowLoop]
  have hk : n - j = (n - j - 1) + 1 := by omega
  rw [hk, rowLoopAux]
  rw [rowLoopAux_getD_of_lt _ _ _ _ _ (Nat.lt_succ_self j)]
  simp [List.getD, List.getElem?_set_self, hlen]

/-! ## Filter reconstruction (DecodeRow's switch) -/

/-- The `ftSub` reconstruction: `for i := bpp; i < len(cdat); i++ { cdat[i] += cdat[i-bpp] }`
with `uint8` wraparound. -/
def filterSub (bpp : Nat) (cdat : List Nat) : List Nat :=
  rowLoop (fun i c => (c.getD i 0 + c.getD (i - bpp) 0) % 256) cdat bpp cdat.length

/-- The `ftUp` reconstruction: `for i, p := range pdat { cdat[i] += p }`. -/
def filterUp (cdat pdat : List Nat) : List Nat :=
  rowLoop (fun i c => (c.getD i 0 + pdat.getD i 0) % 256) cdat 0 pdat.length

/-- The `ftAverage` reconstruction, two loops as in reader.go: the first `bpp`
bytes get `cdat[i] += pdat[i] / 2`; the rest get
`cdat[i] += uint8((int(cdat[i-bpp]) + int(pdat[i])) / 2)` — the sum is taken
in `int`, exactly, and only the quotient is cast back to `uint8`. -/
def filterAverage (bpp : Nat) (cdat pdat : List Nat) : List Nat :=
  let c1 := rowLoop (fun i c => (c.getD i 0 + pdat.getD i 0 / 2) % 256) cdat 0 bpp
  rowLoop (fun i c => (c.getD i 0 + (c.getD (i - bpp) 0 + pdat.getD i 0) / 2 % 256) % 256)
    c1 bpp c1.length

/-- Modelled from the spec: the Paeth predictor of §4.5 — the source file
defining `filterPaeth` is not part of the provided sources.  Predictor
`p = a + b - c` (modulo-256 byte arithmetic, per the spec's "all arithmetic is
modulo-256 ... in the predictor math"); the predicted value is whichever of
`a`, `b`, `c` is closest to `p` by absolute distance, with tie-break order
`a`, then `b`, then `c`. -/
def paethPredictor (a b c : Nat) : Nat :=
  let p : Nat := (a + b + 256 - c % 256) % 256
  let pa : Nat := Int.natAbs ((p : Int) - (a : Int))
  let pb : Nat := Int.natAbs ((p : Int) - (b : Int))
  let pc : Nat := Int.natAbs ((p : Int) - (c : Int))
  if pa ≤ pb ∧ pa ≤ pc then a
  else if pb ≤ pc then b
  else c

/-- Modelled from the spec: `filterPaeth(cdat, pdat, bpp)` of §4.5 — the
source file defining it is not part of the provided sources.  In place, left
to right: `a` is the already reconstructed left neighbor `cdat[i-bpp]` (0 if
absent), `b` the up neighbor `pdat[i]`, `c` the upper-left `pdat[i-bpp]` (0 if
absent); `cdat[i] += paethPredictor a b c` with `uint8` wraparound. -/
def filterPaeth (cdat pdat : List Nat) (bpp : Nat) : List Nat :=
  rowLoop (fun i c =>
      let a := if i < bpp then 0 else c.getD (i - bpp) 0
      let b := pdat.getD i 0
      let cc := if i < bpp then 0 else pdat.getD (i - bpp) 0
      (c.getD i 0 + paethPredictor a b cc) % 256)
    cdat 0 cdat.length

/-- The filter switch of `Decoder.DecodeRow` (reader.go lines 177–202),
keyed on the row's filter-type byte. -/
def reconRow (bpp ft : Nat) (cdat pdat : List Nat) : Except PNGError (List Nat) :=
  match ft with
  | 0 => .ok cdat
  | 1 => .ok (filterSub bpp cdat)
  | 2 => .ok (filterUp cdat pdat)
  | 3 => .ok (filterAverage bpp cdat pdat)
  | 4 => .ok (filterPaeth cdat pdat bpp)
  | _ => .error (.formatError "bad filter type")

/-! ## The row-by-row Decoder -/

/-- The `Decoder` struct of reader.go, at the row level.  `zstream` stands for
the output of the zlib decompression transform `zlibR`, an external
collaborator modelled as the byte stream it yields. -/
structure Decoder where
  zstream : List Nat
  bytesPerPixel : Nat
  height : Nat
  cr : List Nat
  pr : List Nat
  y : Nat
deriving DecidableEq

/-- The row-buffer setup of `NewDecoder` (reader.go lines 137–147):
`bitsPerPixel = 32`, `bytesPerPixel = 4`, `rowSize = 1 + (32*width+7)/8`, and
`cr`, `pr` freshly allocated (all zero). -/
def mkRowDecoder (width height : Nat) (zstream : List Nat) : Decoder :=
  let bitsPerPixel := 32
  let rowSize := 1 + (bitsPerPixel * width + 7) / 8
  { zstream := zstream
    bytesPerPixel := (bitsPerPixel + 7) / 8
    height := height
    cr := List.replicate rowSize 0
    pr := List.replicate rowSize 0
    y := 0 }

/-- The method `Decoder.DecodeRow` (reader.go lines 160–207): end-of-rows check, read one
scanline from the decompressed stream (`io.EOF`/`io.ErrUnexpectedEOF` become
the format error "not enough pixel data"), reconstruct it in place keyed on
the filter byte `cr[0]`, swap the `cr`/`pr` references, advance `y`, and
return the reconstructed data bytes. -/
def Decoder.decodeRow (d : Decoder) : Except PNGError (List Nat × Decoder) :=
  if d.y ≥ d.height then .error .eof
  else
    match readFull d.zstream d.cr.length with
    | .error .eof => .error (.formatError "not enough pixel data")
    | .error .unexpectedEOF => .error (.formatError "not enough pixel data")
    | .error e => .error e
    | .ok (row, rest) =>
      let ft := row.getD 0 0
      let cdat := row.drop 1
      let pdat := d.pr.drop 1
      match reconRow d.bytesPerPixel ft cdat pdat with
      | .error e => .error e
      | .ok out =>
        .ok (out, { d with zstream := rest, pr := ft :: out, cr := d.pr, y := d.y + 1 })

/-- Decoding `k` consecutive rows, collecting the returned scanlines: the
caller-side loop of `readPNG` in reader_test.go. -/
def decodeImage (d : Decoder) : Nat → Except PNGError (List (List Nat))
  | 0 => .ok []
  | k + 1 =>
    match d.decodeRow with
    | .error e => .error e
    | .ok (row, d2) =>
      match decodeImage d2 k with
      | .error e => .error e
      | .ok rows => .ok (row :: rows)

/-! ## The Row Encoder, modelled from the spec

The repository's encoder (`NewEncoder`, `Encode`) is exercised by the provided
test `TestEncode` but its source file is not among the provided sources, so it
is modelled from the spec (§4.5 filter application, §4.7 Row Encoder).  The
compression transform is an external collaborator whose effort level does not
affect decodability (§4.7), so the encoder is modelled at the filtered
scanline level: what it feeds into the lossless compression transform is what
the decoder's decompression transform yields back.
-/

/-- Byte subtraction with wraparound: `x - y` modulo 256. -/
def sub256 (x y : Nat) : Nat := (x + 256 - y % 256) % 256

/-- Modelled from the spec: §4.5 filter application (encode side), "the
algebraic inverse of each formula (subtraction instead of addition, same
predictor ... computed from ... original bytes)".  `row` is the current row's
original bytes, `prev` the previous row's original bytes. -/
def applyFilter (bpp ft : Nat) (row prev : List Nat) : List Nat :=
  (List.range row.length).map fun i =>
    match ft with
    | 1 => if i < bpp then row.getD i 0 else sub256 (row.getD i 0) (row.getD (i - bpp) 0)
    | 2 => sub256 (row.getD i 0) (prev.getD i 0)
    | 3 =>
      if i < bpp then sub256 (row.getD i 0) (prev.getD i 0 / 2)
      else sub256 (row.getD i 0) ((row.getD (i - bpp) 0 + prev.getD i 0) / 2 % 256)
    | 4 =>
      let a := if i < bpp then 0 else row.getD (i - bpp) 0
      let b := prev.getD i 0
      let c := if i < bpp then 0 else prev.getD (i - bpp) 0
      sub256 (row.getD i 0) (paethPredictor a b c)
    | _ => row.getD i 0

/-- Modelled from the spec: §4.7 Row Encoder — for each row, a filter mode is
selected (tags, an arbitrary per-row policy choice), applied against the
previous original row (a virtual all-zero row above row 0), and the filter-tag
byte followed by the filtered bytes is written to the compression transform. -/
def encodeScanlines (bpp : Nat) : List (List Nat) → List Nat → List Nat → List Nat
  | row :: rs, t :: ts, prev => (t :: applyFilter bpp t row prev) ++ encodeScanlines bpp rs ts row
  | _, _, _ => []

/-! ## Chunk-level decoding: IHDR parsing, the chunk-order scan, the
compressed-stream adapter and stream finalization -/

/-- The method `decoder.parseIHDR` (reader.go lines 267–311), parametrised by the
platform's `int` width `intBits` (Go's `int`, 32 or 64 bits). -/
def parseIHDR (intBits : Nat) (d : decoder) (length : Nat) : Except PNGError decoder :=
  if length ≠ 13 then .error (.formatError "bad IHDR length")
  else
    match readFull d.r 13 with
    | .error e => .error e
    | .ok (tmp, rest) =>
      let d := { d with r := rest, crc := crcUpdate d.crc tmp }
      if tmp.getD 10 0 ≠ 0 then .error (.unsupportedError "compression method")
      else if tmp.getD 11 0 ≠ 0 then .error (.unsupportedError "filter method")
      else
        let w : Int := wrapInt 32 (beUint32 (tmp.take 4))
        let h : Int := wrapInt 32 (beUint32 ((tmp.drop 4).take 4))
        if w ≤ 0 ∨ h ≤ 0 then .error (.formatError "non-positive dimension")
        else
          let nPixels64 : Int := w * h
          let nPixels : Int := wrapInt intBits nPixels64
          if nPixels64 ≠ nPixels then .error (.unsupportedError "dimension overflow")
          else if nPixels ≠ Int.tdiv (wrapInt intBits (nPixels * 8)) 8 then
            .error (.unsupportedError "dimension overflow")
          else
            let depth := tmp.getD 8 0
            let colorType := tmp.getD 9 0
            let cb : Nat :=
              match depth, colorType with
              | 8, 6 => cbTCA8
              | _, _ => cbInvalid
            if cb = cbInvalid then
              .error (.unsupportedError s!"bit depth {depth}, color type {colorType}")
            else
              verifyChecksum
                { d with cb := cb, depth := depth, width := w.toNat, height := h.toNat }

theorem readFull_ok {r : List Nat} {n : Nat} {bs rest : List Nat}
    (h : readFull r n = .ok (bs, rest)) :
    bs = r.take n ∧ rest = r.drop n ∧ n ≤ r.length := by
  unfold readFull at h
  split at h
  · simp only [Except.ok.injEq, Prod.mk.injEq] at h
    exact ⟨h.1.symm, h.2.symm, by assumption⟩
  · split at h <;> simp at h

theorem verifyChecksum_ok {d d2 : decoder} (h : verifyChecksum d = .ok d2) :
    d2 = { d with r := d.r.drop 4 } ∧ 4 ≤ d.r.length ∧ beUint32 (d.r.take 4) = d.crc := by
  unfold verifyChecksum at h
  cases hrf : readFull d.r 4 with
  | error e => simp only [hrf] at h; exact Except.noConfusion h
  | ok p =>
    obtain ⟨bs, rest⟩ := p
    obtain ⟨hbs, hrest, hlen⟩ := readFull_ok hrf
    simp only [hrf] at h
    split at h
    · exact absurd h (by simp)
    · simp only [Except.ok.injEq] at h
      subst hbs hrest
      exact ⟨h.symm, hlen, by omega⟩

/-- The chunk-skipping loop of `NewDecoder`'s default branch (reader.go lines
113–122): read `length` bytes in increments of at most 4096, feeding each read
into the running checksum. -/
def skipChunk (d : decoder) (length : Nat) : Except PNGError decoder :=
  if h : 0 < length then
    match readFull d.r (min 4096 length) with
    | .error e => .error e
    | .ok (bs, rest) =>
      skipChunk { d with r := rest, crc := crcUpdate d.crc bs } (length - min 4096 length)
  else .ok d
termination_by length
decreasing_by omega

theorem skipChunk_r_length {d : decoder} {length : Nat} {d2 : decoder}
    (h : skipChunk d length = .ok d2) : d2.r.length ≤ d.r.length := by
  induction length using Nat.strong_induction_on generalizing d with
  | _ length ih =>
    unfold skipChunk at h
    split at h
    · cases hrf : readFull d.r (min 4096 length) with
      | error e => simp only [hrf] at h; exact Except.noConfusion h
      | ok p =>
        obtain ⟨bs, rest⟩ := p
        obtain ⟨hbs, hrest, hlen⟩ := readFull_ok hrf
        simp only [hrf] at h
        have hlt : length - min 4096 length < length := by omega
        have hrec := ih _ hlt h
        subst hrest
        simp only [List.length_drop] at hrec
        omega
    · simp only [Except.ok.injEq] at h
      subst h
      exact Nat.le_refl _

theorem parseIHDR_r_length {intBits : Nat} {d : decoder} {length : Nat} {d2 : decoder}
    (h : parseIHDR intBits d length = .ok d2) : d2.r.length ≤ d.r.length := by
  unfold parseIHDR at h
  split at h
  · exact absurd h (by simp)
  cases hrf : readFull d.r 13 with
  | error e => simp only [hrf] at h; exact Except.noConfusion h
  | ok p =>
    obtain ⟨bs, rest⟩ := p
    obtain ⟨hbs, hrest, hlen⟩ := readFull_ok hrf
    simp only [hrf] at h
    repeat' split at h
    all_goals
      first
      | exact Except.noConfusion h
      | · obtain ⟨hd2, hle, hcrc⟩ := verifyChecksum_ok h
          subst hd2 hrest
          simp only [List.length_drop]
          omega

/-- The chunk-dispatch loop of `NewDecoder` (reader.go lines 78–127):
repeatedly read an 8-byte chunk header, reset the checksum over the type tag,
and dispatch until an IDAT chunk header is found. -/
def newDecoderLoop (intBits : Nat) (d : decoder) : Except PNGError decoder :=
  match hr : readFull d.r 8 with
  | .error e => .error e
  | .ok (hdr, rest) =>
    let length := beUint32 (hdr.take 4)
    let tag := hdr.drop 4
    let d1 : decoder := { d with r := rest, crc := crcUpdate 0 tag }
    if tagString tag = "IHDR" then
      if d1.stage ≠ dsStart then .error chunkOrderError
      else
        match hp : parseIHDR intBits { d1 with stage := dsSeenIHDR } length with
        | .error .eof => .error .unexpectedEOF
        | .error e => .error e
        | .ok d2 =>
          if d2.cb ≠ cbTCA8 then
            .error (.genericError s!"color type and bit depth not cbTCA8 {d2.cb}")
          else newDecoderLoop intBits d2
    else if tagString tag = "IDAT" then
      if d1.stage < dsSeenIHDR ∨ d1.stage > dsSeenIDAT then .error chunkOrderError
      else .ok { d1 with idatLength := length, stage := dsSeenIDAT }
    else
      if length > 0x7fffffff then .error (.formatError s!"Bad chunk length: {length}")
      else
        match hs : skipChunk d1 length with
        | .error e => .error e
        | .ok d2 =>
          match hv : verifyChecksum d2 with
          | .error e => .error e
          | .ok d3 => newDecoderLoop intBits d3
termination_by d.r.length
decreasing_by
  · obtain ⟨hbs, hrest, hlen⟩ := readFull_ok hr
    have h2 := parseIHDR_r_length hp
    simp only at h2
    subst hrest
    simp only [List.length_drop] at h2
    omega
  · obtain ⟨hbs, hrest, hlen⟩ := readFull_ok hr
    have h2 := skipChunk_r_length hs
    obtain ⟨hd3, hle, hcrc⟩ := verifyChecksum_ok hv
    subst hd3 hrest
    simp only [List.length_drop] at h2 ⊢
    omega

/-- The scan of `NewDecoder` (reader.go lines 66–127): the decoder starts
with a fresh CRC digest and stage `dsStart`; the signature is checked (with
`io.EOF` mapped to `io.ErrUnexpectedEOF`), then the chunk-dispatch loop runs
until the first IDAT chunk header. -/
def NewDecoderScan (intBits : Nat) (r : List Nat) : Except PNGError decoder :=
  match checkHeader { r := r } with
  | .error .eof => .error .unexpectedEOF
  | .error e => .error e
  | .ok d => newDecoderLoop intBits d

/-- The `for d.idatLength == 0` loop of `decoder.Read` (reader.go lines
324–340): verify the exhausted chunk's trailing checksum, read the next
8-byte chunk header, require an IDAT tag (else format error "not enough pixel
data"), record the new segment length and reset the checksum over the new
tag. -/
def decoderReadLoop (d : decoder) : Except PNGError decoder :=
  if d.idatLength = 0 then
    match hv : verifyChecksum d with
    | .error e => .error e
    | .ok d1 =>
      match hr : readFull d1.r 8 with
      | .error e => .error e
      | .ok (hdr, rest) =>
        let newLen := beUint32 (hdr.take 4)
        let tag := hdr.drop 4
        if tagString tag ≠ "IDAT" then .error (.formatError "not enough pixel data")
        else decoderReadLoop { d1 with r := rest, crc := crcUpdate 0 tag, idatLength := newLen }
  else .ok d
termination_by d.r.length
decreasing_by
  obtain ⟨hd1, hle, hcrc⟩ := verifyChecksum_ok hv
  obtain ⟨hbs, hrest, hlen⟩ := readFull_ok hr
  subst hd1 hrest
  simp only [List.length_drop] at *
  omega

/-- The method `decoder.Read` (reader.go lines 320–348), the compressed-stream adapter.
`plen` is the length of the caller's buffer `p`; the underlying reader is
list-backed, yielding `min` of the requested count and the bytes left and
`io.EOF` when it is empty (as `bytes.Reader` does).  On success returns the
bytes delivered into `p`. -/
def decoderRead (intBits : Nat) (d : decoder) (plen : Nat) :
    Except PNGError (List Nat × decoder) :=
  if plen = 0 then .ok ([], d)
  else
    match decoderReadLoop d with
    | .error e => .error e
    | .ok d1 =>
      if wrapInt intBits (d1.idatLength : Int) < 0 then
        .error (.unsupportedError "IDAT chunk length overflow")
      else
        let k := min plen d1.idatLength
        let n := min k d1.r.length
        let bs := d1.r.take n
        if n = 0 then .error .eof
        else
          .ok (bs, { d1 with r := d1.r.drop n, crc := crcUpdate d1.crc bs,
                             idatLength := d1.idatLength - n })

/-- The method `decoder.readIEND` (reader.go lines 350–368): read the next chunk header,
reset the checksum over its tag, require tag "IEND" (else format error naming
the tag found), require length 0 (else "bad IEND length"), then verify the
terminal chunk's checksum. -/
def readIEND (d : decoder) : Except PNGError decoder :=
  match readFull d.r 8 with
  | .error e => .error e
  | .ok (hdr, rest) =>
    let length := beUint32 (hdr.take 4)
    let tag := hdr.drop 4
    let d1 : decoder := { d with r := rest, crc := crcUpdate 0 tag }
    if tagString tag ≠ "IEND" then .error (.formatError ("not IEND " ++ tagString tag))
    else if length ≠ 0 then .error (.formatError "bad IEND length")
    else verifyChecksum d1

/-- The method `Decoder.Close` (reader.go lines 210–227): trivial success if the terminal
chunk was already consumed; otherwise close the decompression transform
(`zlibR.Close`, an external collaborator modelled as returning no error),
verify the last data chunk's trailing checksum, and read the terminal chunk. -/
def close (d : decoder) : Except PNGError decoder :=
  if d.stage = dsSeenIEND then .ok d
  else
    match verifyChecksum d with
    | .error e => .error e
    | .ok d2 => readIEND d2

/-! ## Helper lemmas about the chunk-level primitives -/

theorem verifyChecksum_mismatch {d : decoder} (h4 : 4 ≤ d.r.length)
    (hm : beUint32 (d.r.take 4) ≠ d.crc) :
    verifyChecksum d = .error (.formatError "invalid checksum") := by
  unfold verifyChecksum readFull
  rw [if_pos h4]
  simp [hm]

theorem verifyChecksum_match {d : decoder} (h4 : 4 ≤ d.r.length)
    (hm : beUint32 (d.r.take 4) = d.crc) :
    verifyChecksum d = .ok { d with r := d.r.drop 4 } := by
  unfold verifyChecksum readFull
  rw [if_pos h4]
  simp [hm]

theorem readFull_of_le {r : List Nat} {n : Nat} (h : n ≤ r.length) :
    readFull r n = .ok (r.take n, r.drop n) := by
  unfold readFull
  rw [if_pos h]

/-- The adapter loop exits at once when the current segment is not
exhausted. -/
theorem decoderReadLoop_exit {d : decoder} (h : d.idatLength ≠ 0) :
    decoderReadLoop d = .ok d := by
  rw [decoderReadLoop.eq_def]
  rw [if_neg h]

/-! ## C10: Read with an empty buffer -/

/-- C10: for every decoder state, calling the compressed-stream adapter's
`Read` with an empty buffer returns 0 bytes and no error and leaves the whole
session state (stream position, checksum accumulator, remaining segment
length) unchanged, even when the current data-chunk segment is exhausted. -/
theorem C10_read_empty_buffer (intBits : Nat) (d : decoder) :
    decoderRead intBits d 0 = .ok ([], d) := by
  unfold decoderRead
  rw [if_pos rfl]

/-! ## C9: negative remaining segment length -/

/-- C9: whenever the remaining data-chunk segment length is negative when
viewed as the platform's signed integer, a `Read` call with a non-empty buffer
returns the unsupported-feature error "IDAT chunk length overflow" and
transfers no bytes. -/
theorem C9_idat_length_overflow (intBits : Nat) (d : decoder) (plen : Nat)
    (hbits : intBits = 32 ∨ intBits = 64) (hp : plen ≠ 0)
    (hneg : wrapInt intBits (d.idatLength : Int) < 0) :
    decoderRead intBits d plen = .error (.unsupportedError "IDAT chunk length overflow") := by
  have hz : d.idatLength ≠ 0 := by
    intro h0
    rw [h0] at hneg
    rcases hbits with h | h <;> subst h <;> simp [wrapInt] at hneg
  unfold decoderRead
  rw [if_neg hp, decoderReadLoop_exit hz]
  simp only [if_pos hneg]

/-- Witness for C9: a 32-bit platform with remaining segment length
`2^31` (negative as a 32-bit signed integer). -/
theorem C9_idat_length_overflow_witness :
    decoderRead 32 { r := [], idatLength := 2 ^ 31 } 1 =
      .error (.unsupportedError "IDAT chunk length overflow") :=
  C9_idat_length_overflow 32 { r := [], idatLength := 2 ^ 31 } 1 (Or.inl rfl)
    (by decide) (by decide)

/-- One step of the adapter loop: checksum mismatch at the chunk boundary. -/
theorem decoderReadLoop_mismatch {d : decoder} (hz : d.idatLength = 0)
    (h4 : 4 ≤ d.r.length) (hm : beUint32 (d.r.take 4) ≠ d.crc) :
    decoderReadLoop d = .error (.formatError "invalid checksum") := by
  rw [decoderReadLoop.eq_def, if_pos hz]
  split
  · rename_i e heq
    rw [verifyChecksum_mismatch h4 hm] at heq
    cases heq
    rfl
  · rename_i d1 heq
    rw [verifyChecksum_mismatch h4 hm] at heq
    exact Except.noConfusion heq

/-- One step of the adapter loop: checksum matches but the next chunk header
does not carry the IDAT tag. -/
theorem decoderReadLoop_badTag {d : decoder} (hz : d.idatLength = 0)
    (h12 : 12 ≤ d.r.length) (hm : beUint32 (d.r.take 4) = d.crc)
    (htag : tagString (((d.r.drop 4).take 8).drop 4) ≠ "IDAT") :
    decoderReadLoop d = .error (.formatError "not enough pixel data") := by
  rw [decoderReadLoop.eq_def, if_pos hz]
  split
  · rename_i e heq
    rw [verifyChecksum_match (by omega) hm] at heq
    exact Except.noConfusion heq
  · rename_i d1 heq
    rw [verifyChecksum_match (by omega) hm] at heq
    cases heq
    split
    · rename_i e heq2
      rw [readFull_of_le (by simp; omega)] at heq2
      exact Except.noConfusion heq2
    · rename_i hdr rest heq2
      rw [readFull_of_le (by simp; omega)] at heq2
      cases heq2
      rw [if_pos htag]

/-- One step of the adapter loop: checksum matches and the next chunk header
carries the IDAT tag — the loop continues on the advanced state, with the
checksum reset over the new tag and the new segment length recorded. -/
theorem decoderReadLoop_goodTag {d : decoder} (hz : d.idatLength = 0)
    (h12 : 12 ≤ d.r.length) (hm : beUint32 (d.r.take 4) = d.crc)
    (htag : tagString (((d.r.drop 4).take 8).drop 4) = "IDAT") :
    decoderReadLoop d = decoderReadLoop
      { d with r := d.r.drop 12,
               crc := crcUpdate 0 (((d.r.drop 4).take 8).drop 4),
               idatLength := beUint32 ((d.r.drop 4).take 4) } := by
  conv_lhs => rw [decoderReadLoop.eq_def]
  rw [if_pos hz]
  split
  · rename_i e heq
    rw [verifyChecksum_match (by omega) hm] at heq
    exact Except.noConfusion heq
  · rename_i d1 heq
    rw [verifyChecksum_match (by omega) hm] at heq
    cases heq
    split
    · rename_i e heq2
      rw [readFull_of_le (by simp; omega)] at heq2
      exact Except.noConfusion heq2
    · rename_i hdr rest heq2
      rw [readFull_of_le (by simp; omega)] at heq2
      cases heq2
      rw [if_neg (by simpa using htag)]
      congr 1
      simp [List.drop_drop, List.take_take]

/-! ## C6: Read at a data-chunk boundary -/

/-- C6: a `Read` call with a non-empty buffer while the current data-chunk
segment is exhausted first verifies that segment's trailing 4-byte checksum
(format error "invalid checksum" on mismatch), then reads the next 8-byte
chunk header and returns the format error "not enough pixel data" if its type
tag is not IDAT; otherwise it resets the checksum over the new tag, records
the new segment length and continues; and a `Read` on an unexhausted segment
copies at most the remaining segment length into the caller's buffer, feeding
every copied byte into the checksum. -/
theorem C6_adapter_read (intBits : Nat) (d : decoder) (plen : Nat)
    (hp : plen ≠ 0) (hz : d.idatLength = 0) :
    (4 ≤ d.r.length → beUint32 (d.r.take 4) ≠ d.crc →
      decoderRead intBits d plen = .error (.formatError "invalid checksum")) ∧
    (12 ≤ d.r.length → beUint32 (d.r.take 4) = d.crc →
      tagString (((d.r.drop 4).take 8).drop 4) ≠ "IDAT" →
      decoderRead intBits d plen = .error (.formatError "not enough pixel data")) ∧
    (12 ≤ d.r.length → beUint32 (d.r.take 4) = d.crc →
      tagString (((d.r.drop 4).take 8).drop 4) = "IDAT" →
      decoderRead intBits d plen =
        decoderRead intBits
          { d with r := d.r.drop 12,
                   crc := crcUpdate 0 (((d.r.drop 4).take 8).drop 4),
                   idatLength := beUint32 ((d.r.drop 4).take 4) } plen) ∧
    (∀ d1 : decoder, d1.idatLength ≠ 0 → ¬ wrapInt intBits (d1.idatLength : Int) < 0 →
      min (min plen d1.idatLength) d1.r.length ≠ 0 →
      decoderRead intBits d1 plen =
        .ok (d1.r.take (min (min plen d1.idatLength) d1.r.length),
          { d1 with
              r := d1.r.drop (min (min plen d1.idatLength) d1.r.length),
              crc := crcUpdate d1.crc (d1.r.take (min (min plen d1.idatLength) d1.r.length)),
              idatLength := d1.idatLength - min (min plen d1.idatLength) d1.r.length })) := by
  refine ⟨?_, ?_, ?_, ?_⟩
  · intro h4 hm
    unfold decoderRead
    rw [if_neg hp, decoderReadLoop_mismatch hz h4 hm]
  · intro h12 hm htag
    unfold decoderRead
    rw [if_neg hp, decoderReadLoop_badTag hz h12 hm htag]
  · intro h12 hm htag
    unfold decoderRead
    rw [if_neg hp, if_neg hp, decoderReadLoop_goodTag hz h12 hm htag]
  · intro d1 hz1 hwrap hn
    unfold decoderRead
    rw [if_neg hp, decoderReadLoop_exit hz1]
    simp only [if_neg hwrap]
    rw [if_neg hn]

/-- Witness for C6: a boundary `Read` over a stream whose pending checksum
bytes are all zero against a digest of 0 (a match), followed by a non-IDAT
chunk header, hits the "not enough pixel data" error. -/
theorem C6_adapter_read_witness :
    decoderRead 64 { r := [0, 0, 0, 0, 0, 0, 0, 0, 73, 69, 78, 68], crc := 0 } 1 =
      .error (.formatError "not enough pixel data") :=
  (C6_adapter_read 64 { r := [0, 0, 0, 0, 0, 0, 0, 0, 73, 69, 78, 68], crc := 0 } 1
      (by decide) (by decide)).2.1 (by decide) (by decide) (by decide)

/-! ## C4: chunk-order errors in the NewDecoder scan -/

/-- An IHDR chunk header encountered while the scan is not in the `dsStart`
stage is a chunk-order error. -/
theorem newDecoderLoop_ihdrOutOfOrder {intBits : Nat} {d : decoder}
    (h8 : 8 ≤ d.r.length) (htag : tagString ((d.r.take 8).drop 4) = "IHDR")
    (hstage : d.stage ≠ dsStart) :
    newDecoderLoop intBits d = .error chunkOrderError := by
  rw [newDecoderLoop.eq_def]
  split
  · rename_i e heq
    rw [readFull_of_le h8] at heq
    exact Except.noConfusion heq
  · rename_i hdr rest heq
    rw [readFull_of_le h8] at heq
    simp only [Except.ok.injEq, Prod.mk.injEq] at heq
    obtain ⟨h1, h2⟩ := heq
    subst h1 h2
    simp only [htag, if_true]
    rw [if_pos hstage]

/-- An IDAT chunk header encountered while the scan is still in the `dsStart`
stage (no header chunk seen yet) is a chunk-order error. -/
theorem newDecoderLoop_idatBeforeIHDR {intBits : Nat} {d : decoder}
    (h8 : 8 ≤ d.r.length) (htag : tagString ((d.r.take 8).drop 4) = "IDAT")
    (hstage : d.stage = dsStart) :
    newDecoderLoop intBits d = .error chunkOrderError := by
  rw [newDecoderLoop.eq_def]
  split
  · rename_i e heq
    rw [readFull_of_le h8] at heq
    exact Except.noConfusion heq
  · rename_i hdr rest heq
    rw [readFull_of_le h8] at heq
    simp only [Except.ok.injEq, Prod.mk.injEq] at heq
    obtain ⟨h1, h2⟩ := heq
    subst h1 h2
    simp only [htag]
    rw [if_neg (by simp), if_pos True.intro, if_pos (by rw [hstage]; decide)]

/-- C4: the scan of `NewDecoder` yields the chunk-order format error
("chunk out of order") whenever an IHDR chunk header is encountered in any
stage other than `dsStart` (a duplicated or reordered header chunk), and
whenever an IDAT chunk header is encountered before any header chunk has been
seen — in particular on a stream whose first chunk after the signature is an
IDAT chunk. -/
theorem C4_chunk_out_of_order (intBits : Nat) (d : decoder) (r0 : List Nat) :
    (8 ≤ d.r.length → tagString ((d.r.take 8).drop 4) = "IHDR" → d.stage ≠ dsStart →
      newDecoderLoop intBits d = .error chunkOrderError) ∧
    (8 ≤ d.r.length → tagString ((d.r.take 8).drop 4) = "IDAT" → d.stage = dsStart →
      newDecoderLoop intBits d = .error chunkOrderError) ∧
    (8 ≤ r0.length → tagString ((r0.take 8).drop 4) = "IDAT" →
      NewDecoderScan intBits (pngHeaderBytes ++ r0) = .error chunkOrderError) := by
  refine ⟨newDecoderLoop_ihdrOutOfOrder, newDecoderLoop_idatBeforeIHDR, ?_⟩
  intro h8 htag
  have hlen : 8 ≤ (pngHeaderBytes ++ r0).length := by
    simp [pngHeaderBytes]
  have htake : (pngHeaderBytes ++ r0).take 8 = pngHeaderBytes := by
    rw [show (8 : Nat) = pngHeaderBytes.length from rfl, List.take_left]
  have hdrop : (pngHeaderBytes ++ r0).drop 8 = r0 := by
    rw [show (8 : Nat) = pngHeaderBytes.length from rfl, List.drop_left]
  have hch : checkHeader { r := pngHeaderBytes ++ r0 } = .ok { r := r0 } := by
    unfold checkHeader
    rw [readFull_of_le hlen]
    simp [htake, hdrop]
  unfold NewDecoderScan
  rw [hch]
  exact newDecoderLoop_idatBeforeIHDR h8 htag rfl

/-- Witness for C4: a stream whose first chunk after the signature is a
zero-length IDAT chunk is rejected with the chunk-order error. -/
theorem C4_chunk_out_of_order_witness :
    NewDecoderScan 64 (pngHeaderBytes ++ [0, 0, 0, 0, 73, 68, 65, 84]) =
      .error chunkOrderError :=
  (C4_chunk_out_of_order 64 { r := [] } [0, 0, 0, 0, 73, 68, 65, 84]).2.2
    (by decide) (by decide)

/-! ## C8: Close and the terminal chunk -/

/-- Unfolding of `readIEND` once the 8-byte chunk header is available. -/
theorem readIEND_eq {d : decoder} (h8 : 8 ≤ d.r.length) :
    readIEND d =
      (if tagString ((d.r.take 8).drop 4) ≠ "IEND" then
        .error (.formatError ("not IEND " ++ tagString ((d.r.take 8).drop 4)))
      else if beUint32 ((d.r.take 8).take 4) ≠ 0 then .error (.formatError "bad IEND length")
      else verifyChecksum { d with r := d.r.drop 8, crc := crcUpdate 0 ((d.r.take 8).drop 4) }) := by
  unfold readIEND
  rw [readFull_of_le h8]

/-- C8 (amended): for a session whose terminal chunk was not already consumed,
`Close` closes the decompression transform, verifies the last data chunk's
trailing checksum, then reads the next chunk header; a tag other than IEND
yields the format error "not IEND " followed by the tag found, a nonzero
declared length yields the format error "bad IEND length", and otherwise the
terminal chunk's checksum is verified, any mismatch propagating; `Close`
returns success only if all of these checks pass. -/
theorem C8_close_terminal_chunk (d : decoder) (hstage : d.stage ≠ dsSeenIEND) :
    (4 ≤ d.r.length → beUint32 (d.r.take 4) ≠ d.crc →
      close d = .error (.formatError "invalid checksum")) ∧
    (12 ≤ d.r.length → beUint32 (d.r.take 4) = d.crc →
      tagString (((d.r.drop 4).take 8).drop 4) ≠ "IEND" →
      close d = .error (.formatError ("not IEND " ++ tagString (((d.r.drop 4).take 8).drop 4)))) ∧
    (12 ≤ d.r.length → beUint32 (d.r.take 4) = d.crc →
      tagString (((d.r.drop 4).take 8).drop 4) = "IEND" →
      beUint32 ((d.r.drop 4).take 4) ≠ 0 →
      close d = .error (.formatError "bad IEND length")) ∧
    (12 ≤ d.r.length → beUint32 (d.r.take 4) = d.crc →
      tagString (((d.r.drop 4).take 8).drop 4) = "IEND" →
      beUint32 ((d.r.drop 4).take 4) = 0 →
      close d = verifyChecksum
        { d with r := d.r.drop 12, crc := crcUpdate 0 (((d.r.drop 4).take 8).drop 4) }) ∧
    (∀ d2, close d = .ok d2 →
      4 ≤ d.r.length ∧ beUint32 (d.r.take 4) = d.crc ∧
      tagString (((d.r.drop 4).take 8).drop 4) = "IEND" ∧
      beUint32 ((d.r.drop 4).take 4) = 0) := by
  have h8drop : ∀ h12 : 12 ≤ d.r.length, (8 : Nat) ≤ (d.r.drop 4).length := by
    intro h12; simp; omega
  refine ⟨?_, ?_, ?_, ?_, ?_⟩
  · intro h4 hm
    unfold close
    rw [if_neg hstage, verifyChecksum_mismatch h4 hm]
  · intro h12 hm htag
    unfold close
    rw [if_neg hstage, verifyChecksum_match (by omega) hm]
    rw [show (match (Except.ok { d with r := d.r.drop 4 } : Except PNGError decoder) with
          | .error e => Except.error e
          | .ok d2 => readIEND d2) = readIEND { d with r := d.r.drop 4 } from rfl]
    rw [readIEND_eq (h8drop h12), if_pos htag]
  · intro h12 hm htag hlen
    unfold close
    rw [if_neg hstage, verifyChecksum_match (by omega) hm]
    rw [show (match (Except.ok { d with r := d.r.drop 4 } : Except PNGError decoder) with
          | .error e => Except.error e
          | .ok d2 => readIEND d2) = readIEND { d with r := d.r.drop 4 } from rfl]
    rw [readIEND_eq (h8drop h12), if_neg (by simpa using htag)]
    rw [if_pos (by simpa [List.take_take] using hlen)]
  · intro h12 hm htag hlen
    unfold close
    rw [if_neg hstage, verifyChecksum_match (by omega) hm]
    rw [show (match (Except.ok { d with r := d.r.drop 4 } : Except PNGError decoder) with
          | .error e => Except.error e
          | .ok d2 => readIEND d2) = readIEND { d with r := d.r.drop 4 } from rfl]
    rw [readIEND_eq (h8drop h12), if_neg (by simpa using htag)]
    rw [if_neg (by simpa [List.take_take] using hlen)]
    congr 1
    simp [List.drop_drop]
  · intro d2 h
    unfold close at h
    rw [if_neg hstage] at h
    cases hv : verifyChecksum d with
    | error e => simp only [hv] at h; exact Except.noConfusion h
    | ok d1 =>
      obtain ⟨hd1, h4, hcrc⟩ := verifyChecksum_ok hv
      simp only [hv] at h
      subst hd1
      refine ⟨h4, hcrc, ?_⟩
      unfold readIEND at h
      cases hr8 : readFull (List.drop 4 d.r) 8 with
      | error e => simp only [hr8] at h; exact Except.noConfusion h
      | ok p =>
        obtain ⟨hdr, rest⟩ := p
        obtain ⟨hhdr, hrest, hlen8⟩ := readFull_ok hr8
        simp only [hr8] at h
        subst hhdr hrest
        split at h
        · exact absurd h (by simp)
        · split at h
          · exact absurd h (by simp)
          · rename_i htag hlen
            constructor
            · simpa using htag
            · have := hlen
              simp only [List.take_take] at this
              simpa using this

/-- Witness for C8: a terminal chunk whose tag is IEND but whose declared
length is 1 is rejected with "bad IEND length". -/
theorem C8_close_terminal_chunk_witness :
    close { r := [0, 0, 0, 0, 0, 0, 0, 1, 73, 69, 78, 68], crc := 0, stage := dsSeenIDAT } =
      .error (.formatError "bad IEND length") :=
  (C8_close_terminal_chunk
      { r := [0, 0, 0, 0, 0, 0, 0, 1, 73, 69, 78, 68], crc := 0, stage := dsSeenIDAT }
      (by decide)).2.2.1 (by decide) (by decide) (by decide) (by decide)

/-- Counterexample for C8 as stated: on a stream whose chunk after the data
checksum carries the tag "IDAT" instead of "IEND", `Close` returns the format
error "not IEND IDAT" — the message names the offending tag — which is not
the format error "not IEND". -/
theorem C8_close_terminal_chunk_cex :
    close { r := [0, 0, 0, 0, 0, 0, 0, 0, 73, 68, 65, 84], crc := 0, stage := dsSeenIDAT } =
        .error (.formatError "not IEND IDAT") ∧
      PNGError.formatError "not IEND IDAT" ≠ PNGError.formatError "not IEND" := by
  constructor
  · rfl
  · decide

/-! ## Pointwise characterization of the filter loops -/

theorem rowLoopAux_getD_of_ge (f : Nat → List Nat → Nat) (c : List Nat) (i k j : Nat)
    (h : i + k ≤ j) : (rowLoopAux f c i k).getD j 0 = c.getD j 0 := by
  induction k generalizing c i with
  | zero => rfl
  | succ k ih =>
    rw [rowLoopAux, ih _ _ (by omega)]
    simp [List.getD, List.getElem?_set_ne (by omega : i ≠ j)]

/-- Positions at or beyond the loop's stop index are untouched. -/
theorem rowLoop_getD_of_ge (f : Nat → List Nat → Nat) (c : List Nat) (i n j : Nat)
    (h1 : i ≤ j) (h2 : n ≤ j) : (rowLoop f c i n).getD j 0 = c.getD j 0 :=
  rowLoopAux_getD_of_ge f c i (n - i) j (by omega)

/-- Positions below an intermediate index `j` have their final value already
after the loop has run up to `j`. -/
theorem rowLoop_getD_stable (f : Nat → List Nat → Nat) (c : List Nat) (i n j k : Nat)
    (h1 : i ≤ j) (h2 : j ≤ n) (h3 : k < j) :
    (rowLoop f c i n).getD k 0 = (rowLoop f c i j).getD k 0 := by
  rw [rowLoop_split f c i n j h1 h2, rowLoop_getD_of_lt _ _ _ _ _ h3]

/-- Pointwise value of the Sub reconstruction. -/
theorem filterSub_getD (bpp : Nat) (cdat : List Nat) (i : Nat) (hb : 0 < bpp)
    (hi : i < cdat.length) :
    (filterSub bpp cdat).getD i 0 =
      if i < bpp then cdat.getD i 0
      else (cdat.getD i 0 + (filterSub bpp cdat).getD (i - bpp) 0) % 256 := by
  unfold filterSub
  by_cases hlt : i < bpp
  · rw [if_pos hlt, rowLoop_getD_of_lt _ _ _ _ _ hlt]
  · rw [if_neg hlt]
    rw [rowLoop_getD_at _ _ _ _ _ (by omega) hi hi]
    rw [rowLoop_getD_of_ge _ _ _ _ _ (by omega) (by omega)]
    rw [rowLoop_getD_stable _ _ _ cdat.length i (i - bpp) (by omega) (by omega) (by omega)]

/-- Pointwise value of the Up reconstruction. -/
theorem filterUp_getD (cdat pdat : List Nat) (i : Nat) (hi : i < cdat.length)
    (hip : i < pdat.length) :
    (filterUp cdat pdat).getD i 0 = (cdat.getD i 0 + pdat.getD i 0) % 256 := by
  unfold filterUp
  rw [rowLoop_getD_at _ _ _ _ _ (Nat.zero_le i) hip hi]
  rw [rowLoop_getD_of_ge _ _ _ _ _ (Nat.zero_le i) (Nat.le_refl i)]

/-- Pointwise value of the Average reconstruction: the first `bpp` bytes take
half the up neighbor; later bytes take the floor of half the exact (not
reduced modulo 256) sum of the reconstructed left neighbor and the up
neighbor, the quotient cast to `uint8`. -/
theorem filterAverage_getD (bpp : Nat) (cdat pdat : List Nat) (i : Nat) (hb : 0 < bpp)
    (hi : i < cdat.length) :
    (filterAverage bpp cdat pdat).getD i 0 =
      if i < bpp then (cdat.getD i 0 + pdat.getD i 0 / 2) % 256
      else (cdat.getD i 0 +
        ((filterAverage bpp cdat pdat).getD (i - bpp) 0 + pdat.getD i 0) / 2 % 256) % 256 := by
  unfold filterAverage
  simp only
  by_cases hlt : i < bpp
  · rw [if_pos hlt]
    rw [rowLoop_getD_of_lt _ _ _ _ _ hlt]
    rw [rowLoop_getD_at _ cdat 0 bpp i (Nat.zero_le i) hlt hi]
    rw [rowLoop_getD_of_ge _ cdat 0 i i (Nat.zero_le i) (Nat.le_refl i)]
  · rw [if_neg hlt]
    have hc1len : (rowLoop (fun i c => (c.getD i 0 + pdat.getD i 0 / 2) % 256) cdat 0 bpp).length
        = cdat.length := rowLoop_length _ _ _ _
    rw [rowLoop_getD_at _ (rowLoop (fun i c => (c.getD i 0 + pdat.getD i 0 / 2) % 256) cdat 0 bpp)
      bpp (rowLoop (fun i c => (c.getD i 0 + pdat.getD i 0 / 2) % 256) cdat 0 bpp).length i
      (by omega) (by rw [hc1len]; exact hi) (by rw [hc1len]; exact hi)]
    rw [rowLoop_getD_of_ge _ (rowLoop (fun i c => (c.getD i 0 + pdat.getD i 0 / 2) % 256) cdat 0 bpp)
      bpp i i (by omega) (Nat.le_refl i)]
    rw [rowLoop_getD_of_ge _ cdat 0 bpp i (Nat.zero_le i) (by omega)]
    rw [rowLoop_getD_stable _ (rowLoop (fun i c => (c.getD i 0 + pdat.getD i 0 / 2) % 256) cdat 0 bpp)
      bpp (rowLoop (fun i c => (c.getD i 0 + pdat.getD i 0 / 2) % 256) cdat 0 bpp).length i (i - bpp)
      (by omega) (by rw [hc1len]; omega) (by omega)]

/-- Pointwise value of the Paeth reconstruction: each byte gains the Paeth
prediction computed from the already reconstructed left neighbor, the up
neighbor, and the upper-left neighbor (0 when absent). -/
theorem filterPaeth_getD (cdat pdat : List Nat) (bpp i : Nat) (hb : 0 < bpp)
    (hi : i < cdat.length) :
    (filterPaeth cdat pdat bpp).getD i 0 =
      (cdat.getD i 0 + paethPredictor
        (if i < bpp then 0 else (filterPaeth cdat pdat bpp).getD (i - bpp) 0)
        (pdat.getD i 0)
        (if i < bpp then 0 else pdat.getD (i - bpp) 0)) % 256 := by
  unfold filterPaeth
  rw [rowLoop_getD_at _ cdat 0 cdat.length i (Nat.zero_le i) hi hi]
  simp only
  rw [rowLoop_getD_of_ge _ cdat 0 i i (Nat.zero_le i) (Nat.le_refl i)]
  by_cases hlt : i < bpp
  · simp only [if_pos hlt]
  · simp only [if_neg hlt]
    rw [rowLoop_getD_stable _ cdat 0 cdat.length i (i - bpp) (Nat.zero_le i) (Nat.le_of_lt hi)
      (by omega)]

/-! ## C1: the Average filter -/

/-- C1 (amended): for a row with filter tag 3 (Average) and `bytesPerPixel`
4, each byte `i < 4` gains `pdat[i] / 2` (integer division) and each byte
`i ≥ 4` gains `uint8((cdat[i-4] + pdat[i]) / 2)`, where the sum of the
reconstructed left neighbor and the up neighbor is computed exactly — not
reduced modulo 256 — before the floor division; only the final addition (and
the lossless `uint8` cast of the quotient) wrap modulo 256. -/
theorem C1_average_filter (cdat pdat : List Nat) (i : Nat) (hi : i < cdat.length) :
    (i < 4 → (filterAverage 4 cdat pdat).getD i 0 =
      (cdat.getD i 0 + pdat.getD i 0 / 2) % 256) ∧
    (4 ≤ i → (filterAverage 4 cdat pdat).getD i 0 =
      (cdat.getD i 0 +
        ((filterAverage 4 cdat pdat).getD (i - 4) 0 + pdat.getD i 0) / 2 % 256) % 256) := by
  have h := filterAverage_getD 4 cdat pdat i (by omega) hi
  constructor
  · intro h4
    rw [h, if_pos h4]
  · intro h4
    rw [h, if_neg (by omega)]

/-- Witness for C1 (amended), at the fifth byte of a concrete row. -/
theorem C1_average_filter_witness :
    (4 < 4 →
      (filterAverage 4 [200, 0, 0, 0, 10, 0, 0, 0] [0, 0, 0, 0, 200, 0, 0, 0]).getD 4 0 =
        ([200, 0, 0, 0, 10, 0, 0, 0].getD 4 0 + [0, 0, 0, 0, 200, 0, 0, 0].getD 4 0 / 2) % 256) ∧
    (4 ≤ 4 →
      (filterAverage 4 [200, 0, 0, 0, 10, 0, 0, 0] [0, 0, 0, 0, 200, 0, 0, 0]).getD 4 0 =
        ([200, 0, 0, 0, 10, 0, 0, 0].getD 4 0 +
          ((filterAverage 4 [200, 0, 0, 0, 10, 0, 0, 0]
            [0, 0, 0, 0, 200, 0, 0, 0]).getD (4 - 4) 0 +
              [0, 0, 0, 0, 200, 0, 0, 0].getD 4 0) / 2 % 256) % 256) :=
  C1_average_filter [200, 0, 0, 0, 10, 0, 0, 0] [0, 0, 0, 0, 200, 0, 0, 0] 4 (by decide)

/-- Counterexample for C1 as stated: with reconstructed left neighbor 200 and
up neighbor 200, the code adds `(200 + 200) / 2 = 200` to the byte (exact
sum), yielding 210 — not `((200 + 200) % 256) / 2 = 72` yielding 82 as the
claim's modulo-256 summed term would require. -/
theorem C1_average_filter_cex :
    (filterAverage 4 [200, 0, 0, 0, 10, 0, 0, 0] [0, 0, 0, 0, 200, 0, 0, 0]).getD 4 0 = 210 ∧
    (10 + ((filterAverage 4 [200, 0, 0, 0, 10, 0, 0, 0]
        [0, 0, 0, 0, 200, 0, 0, 0]).getD 0 0 + 200) % 256 / 2) % 256 = 82 ∧
    (210 : Nat) ≠ 82 := by decide

/-! ## C3: the Paeth filter (modelled from the spec) -/

/-- Absolute distance between the Paeth predictor base and a candidate. -/
def paethDist (p x : Nat) : Nat := Int.natAbs ((p : Int) - (x : Int))

/-- The Paeth predictor base `p = a + b - c` in wraparound byte arithmetic. -/
def paethP (a b c : Nat) : Nat := (a + b + 256 - c % 256) % 256

/-- C3: Paeth reconstruction adds to each byte the value among the
reconstructed left neighbor `a` (0 if `i < 4`), the up neighbor `b`, and the
upper-left neighbor `c` (0 if `i < 4`) that is closest by absolute distance to
`p = a + b - c` (byte arithmetic), with tie-break order `a`, then `b`, then
`c`; in particular when `|p-a| = |p-b| ≤ |p-c|`, `a` is chosen; the final
addition wraps modulo 256. -/
theorem C3_paeth_reconstruction (cdat pdat : List Nat) (i : Nat) (hi : i < cdat.length) :
    ((filterPaeth cdat pdat 4).getD i 0 =
      (cdat.getD i 0 + paethPredictor
        (if i < 4 then 0 else (filterPaeth cdat pdat 4).getD (i - 4) 0)
        (pdat.getD i 0)
        (if i < 4 then 0 else pdat.getD (i - 4) 0)) % 256) ∧
    (∀ a b c : Nat,
      (paethPredictor a b c = a ∨ paethPredictor a b c = b ∨ paethPredictor a b c = c) ∧
      (paethDist (paethP a b c) (paethPredictor a b c) ≤ paethDist (paethP a b c) a ∧
       paethDist (paethP a b c) (paethPredictor a b c) ≤ paethDist (paethP a b c) b ∧
       paethDist (paethP a b c) (paethPredictor a b c) ≤ paethDist (paethP a b c) c) ∧
      (paethDist (paethP a b c) a ≤ paethDist (paethP a b c) b →
        paethDist (paethP a b c) a ≤ paethDist (paethP a b c) c →
        paethPredictor a b c = a) ∧
      (paethDist (paethP a b c) b < paethDist (paethP a b c) a →
        paethDist (paethP a b c) b ≤ paethDist (paethP a b c) c →
        paethPredictor a b c = b) ∧
      (paethDist (paethP a b c) c < paethDist (paethP a b c) a →
        paethDist (paethP a b c) c < paethDist (paethP a b c) b →
        paethPredictor a b c = c) ∧
      (paethDist (paethP a b c) a = paethDist (paethP a b c) b →
        paethDist (paethP a b c) a ≤ paethDist (paethP a b c) c →
        paethPredictor a b c = a)) := by
  refine ⟨filterPaeth_getD cdat pdat 4 i (by omega) hi, ?_⟩
  intro a b c
  simp only [paethPredictor, paethDist, paethP]
  split_ifs with h1 h2
  · obtain ⟨h1a, h1b⟩ := h1
    refine ⟨Or.inl rfl, ⟨Nat.le_refl _, h1a, h1b⟩, fun _ _ => rfl, ?_, ?_, fun _ _ => rfl⟩
    · intro hlt _
      exact absurd h1a (by omega)
    · intro hlt _
      exact absurd h1b (by omega)
  · refine ⟨Or.inr (Or.inl rfl), ⟨by omega, Nat.le_refl _, h2⟩, ?_, fun _ _ => rfl, ?_, ?_⟩
    · intro ha hb
      exact absurd (And.intro ha hb) h1
    · intro hc _
      exact absurd h2 (by omega)
    · intro hab hac
      exact absurd (And.intro (by omega) hac) h1
  · refine ⟨Or.inr (Or.inr rfl), ⟨by omega, by omega, Nat.le_refl _⟩, ?_, ?_, fun _ _ => rfl, ?_⟩
    · intro ha hb
      exact absurd (And.intro ha hb) h1
    · intro _ hbc
      exact absurd hbc (by omega)
    · intro hab hac
      exact absurd (And.intro (by omega) hac) h1

/-- Witness for C3 at a concrete row position. -/
theorem C3_paeth_reconstruction_witness :
    ((filterPaeth [1, 2, 3, 4, 5] [9, 8, 7, 6, 5] 4).getD 4 0 =
      ((5 : Nat) + paethPredictor
        (if 4 < 4 then 0 else (filterPaeth [1, 2, 3, 4, 5] [9, 8, 7, 6, 5] 4).getD 0 0)
        (5 : Nat)
        (if 4 < 4 then 0 else (9 : Nat))) % 256) ∧
    (∀ a b c : Nat,
      (paethPredictor a b c = a ∨ paethPredictor a b c = b ∨ paethPredictor a b c = c) ∧
      (paethDist (paethP a b c) (paethPredictor a b c) ≤ paethDist (paethP a b c) a ∧
       paethDist (paethP a b c) (paethPredictor a b c) ≤ paethDist (paethP a b c) b ∧
       paethDist (paethP a b c) (paethPredictor a b c) ≤ paethDist (paethP a b c) c) ∧
      (paethDist (paethP a b c) a ≤ paethDist (paethP a b c) b →
        paethDist (paethP a b c) a ≤ paethDist (paethP a b c) c →
        paethPredictor a b c = a) ∧
      (paethDist (paethP a b c) b < paethDist (paethP a b c) a →
        paethDist (paethP a b c) b ≤ paethDist (paethP a b c) c →
        paethPredictor a b c = b) ∧
      (paethDist (paethP a b c) c < paethDist (paethP a b c) a →
        paethDist (paethP a b c) c < paethDist (paethP a b c) b →
        paethPredictor a b c = c) ∧
      (paethDist (paethP a b c) a = paethDist (paethP a b c) b →
        paethDist (paethP a b c) a ≤ paethDist (paethP a b c) c →
        paethPredictor a b c = a)) :=
  C3_paeth_reconstruction [1, 2, 3, 4, 5] [9, 8, 7, 6, 5] 4 (by decide)

/-! ## C7: the previous-row buffer invariant -/

/-- C7: a successful `DecodeRow` leaves the previous-row buffer's data
portion holding exactly the just-reconstructed scanline (the row immediately
above the next row to be decoded), exchanges the two buffer references (the
new current buffer is the old previous buffer, unchanged), and advances the
row index; at construction the previous-row buffer is all zeros (the virtual
row above row 0) and the row index is 0. -/
theorem C7_previous_row_swap (d : Decoder) (out : List Nat) (d2 : Decoder)
    (w h0 : Nat) (zs : List Nat) (h : d.decodeRow = .ok (out, d2)) :
    d2.pr.drop 1 = out ∧ d2.cr = d.pr ∧ d2.y = d.y + 1 ∧
    (mkRowDecoder w h0 zs).pr = List.replicate (1 + 4 * w) 0 ∧
    (mkRowDecoder w h0 zs).y = 0 := by
  have hmk : (mkRowDecoder w h0 zs).pr = List.replicate (1 + 4 * w) 0 := by
    unfold mkRowDecoder
    simp only
    congr 1
    omega
  unfold Decoder.decodeRow at h
  split at h
  · exact Except.noConfusion h
  · cases hrf : readFull d.zstream d.cr.length with
    | error e =>
      cases e <;> simp only [hrf] at h <;> exact Except.noConfusion h
    | ok p =>
      obtain ⟨row, rest⟩ := p
      simp only [hrf] at h
      cases hrc : reconRow d.bytesPerPixel (row.getD 0 0) (row.drop 1) (d.pr.drop 1) with
      | error e => simp only [hrc] at h; exact Except.noConfusion h
      | ok outv =>
        simp only [hrc, Except.ok.injEq, Prod.mk.injEq] at h
        obtain ⟨hout, hd2⟩ := h
        subst hout hd2
        exact ⟨rfl, rfl, rfl, hmk, rfl⟩

/-- Witness for C7: decoding the single unfiltered row of a 1×1 image. -/
theorem C7_previous_row_swap_witness :
    ({ zstream := [], bytesPerPixel := 4, height := 1, cr := List.replicate 5 0,
        pr := [0, 11, 22, 33, 44], y := 1 } : Decoder).pr.drop 1 = [11, 22, 33, 44] ∧
    ({ zstream := [], bytesPerPixel := 4, height := 1, cr := List.replicate 5 0,
        pr := [0, 11, 22, 33, 44], y := 1 } : Decoder).cr = (mkRowDecoder 1 1 [0, 11, 22, 33, 44]).pr ∧
    ({ zstream := [], bytesPerPixel := 4, height := 1, cr := List.replicate 5 0,
        pr := [0, 11, 22, 33, 44], y := 1 } : Decoder).y = (mkRowDecoder 1 1 [0, 11, 22, 33, 44]).y + 1 ∧
    (mkRowDecoder 1 1 [0, 11, 22, 33, 44]).pr = List.replicate (1 + 4 * 1) 0 ∧
    (mkRowDecoder 1 1 [0, 11, 22, 33, 44]).y = 0 :=
  C7_previous_row_swap (mkRowDecoder 1 1 [0, 11, 22, 33, 44]) [11, 22, 33, 44]
    { zstream := [], bytesPerPixel := 4, height := 1, cr := List.replicate 5 0,
      pr := [0, 11, 22, 33, 44], y := 1 } 1 1 [0, 11, 22, 33, 44] (by rfl)

/-! ## C5: the IHDR validation order -/

theorem wrapInt32_range (x : Int) : -2 ^ 31 ≤ wrapInt 32 x ∧ wrapInt 32 x < 2 ^ 31 := by
  unfold wrapInt
  norm_num
  omega

/-- The two overflow checks of `parseIHDR` pass together exactly when the
pixel count scaled by 8 bytes per pixel fits below `2^(intBits-1)`. -/
theorem dimension_overflow_iff (intBits : Nat) (hbits : intBits = 32 ∨ intBits = 64)
    (w h : Int) (hw : 0 < w) (hw2 : w < 2 ^ 31) (hh : 0 < h) (hh2 : h < 2 ^ 31) :
    (w * h = wrapInt intBits (w * h) ∧
      wrapInt intBits (w * h) = Int.tdiv (wrapInt intBits (wrapInt intBits (w * h) * 8)) 8) ↔
    8 * (w * h) < 2 ^ (intBits - 1) := by
  have hn : 0 < w * h := Int.mul_pos hw hh
  have hnub : w * h < 2 ^ 62 := by nlinarith
  rcases hbits with hB | hB <;> subst hB <;> unfold wrapInt <;> norm_num
  · set p : Int := (w * h + 2147483648) % 4294967296 - 2147483648 with hp
    set m : Int := (p * 8 + 2147483648) % 4294967296 - 2147483648 with hm
    obtain ⟨q, hq⟩ : (8 : Int) ∣ m := by omega
    rw [hq, Int.mul_tdiv_cancel_left _ (by norm_num : (8 : Int) ≠ 0)]
    omega
  · set p : Int := (w * h + 9223372036854775808) % 18446744073709551616 - 9223372036854775808
      with hp
    set m : Int := (p * 8 + 9223372036854775808) % 18446744073709551616 - 9223372036854775808
      with hm
    obtain ⟨q, hq⟩ : (8 : Int) ∣ m := by omega
    rw [hq, Int.mul_tdiv_cancel_left _ (by norm_num : (8 : Int) ≠ 0)]
    omega

/-- Unfolding of `parseIHDR` at declared length 13 once the 13 payload bytes
are available. -/
theorem parseIHDR_eq {intBits : Nat} {d : decoder} (h13 : 13 ≤ d.r.length) :
    parseIHDR intBits d 13 =
      (if (d.r.take 13).getD 10 0 ≠ 0 then .error (.unsupportedError "compression method")
      else if (d.r.take 13).getD 11 0 ≠ 0 then .error (.unsupportedError "filter method")
      else if wrapInt 32 (beUint32 ((d.r.take 13).take 4)) ≤ 0 ∨
          wrapInt 32 (beUint32 (((d.r.take 13).drop 4).take 4)) ≤ 0 then
        .error (.formatError "non-positive dimension")
      else if wrapInt 32 (beUint32 ((d.r.take 13).take 4)) *
            wrapInt 32 (beUint32 (((d.r.take 13).drop 4).take 4)) ≠
          wrapInt intBits (wrapInt 32 (beUint32 ((d.r.take 13).take 4)) *
            wrapInt 32 (beUint32 (((d.r.take 13).drop 4).take 4))) then
        .error (.unsupportedError "dimension overflow")
      else if wrapInt intBits (wrapInt 32 (beUint32 ((d.r.take 13).take 4)) *
            wrapInt 32 (beUint32 (((d.r.take 13).drop 4).take 4))) ≠
          Int.tdiv (wrapInt intBits (wrapInt intBits (wrapInt 32 (beUint32 ((d.r.take 13).take 4)) *
            wrapInt 32 (beUint32 (((d.r.take 13).drop 4).take 4))) * 8)) 8 then
        .error (.unsupportedError "dimension overflow")
      else if (match (d.r.take 13).getD 8 0, (d.r.take 13).getD 9 0 with
          | 8, 6 => cbTCA8
          | _, _ => cbInvalid) = cbInvalid then
        .error (.unsupportedError
          s!"bit depth {(d.r.take 13).getD 8 0}, color type {(d.r.take 13).getD 9 0}")
      else
        verifyChecksum
          { d with
            r := d.r.drop 13,
            crc := crcUpdate d.crc (d.r.take 13),
            cb := (match (d.r.take 13).getD 8 0, (d.r.take 13).getD 9 0 with
              | 8, 6 => cbTCA8
              | _, _ => cbInvalid),
            depth := (d.r.take 13).getD 8 0,
            width := (wrapInt 32 (beUint32 ((d.r.take 13).take 4))).toNat,
            height := (wrapInt 32 (beUint32 (((d.r.take 13).drop 4).take 4))).toNat }) := by
  unfold parseIHDR
  rw [if_neg (by simp), readFull_of_le h13]

/-- C5: `parseIHDR` rejects any declared length other than 13 with a format
error, and on a 13-byte payload runs its checks in order — compression method
(byte 10) zero, filter method (byte 11) zero, width and height positive as
32-bit values, pixel count times 8 bytes per pixel within the signed `int`
range, and bit depth/color type equal to the 8-bit truecolor-with-alpha
profile (the error naming the depth and type found) — the first failing check
determining the error. -/
theorem C5_parseIHDR_checks (intBits : Nat) (d : decoder) (length : Nat)
    (hbits : intBits = 32 ∨ intBits = 64) (h13 : 13 ≤ d.r.length) :
    (length ≠ 13 → parseIHDR intBits d length = .error (.formatError "bad IHDR length")) ∧
    ((d.r.take 13).getD 10 0 ≠ 0 →
      parseIHDR intBits d 13 = .error (.unsupportedError "compression method")) ∧
    ((d.r.take 13).getD 10 0 = 0 → (d.r.take 13).getD 11 0 ≠ 0 →
      parseIHDR intBits d 13 = .error (.unsupportedError "filter method")) ∧
    ((d.r.take 13).getD 10 0 = 0 → (d.r.take 13).getD 11 0 = 0 →
      (wrapInt 32 (beUint32 ((d.r.take 13).take 4)) ≤ 0 ∨
        wrapInt 32 (beUint32 (((d.r.take 13).drop 4).take 4)) ≤ 0) →
      parseIHDR intBits d 13 = .error (.formatError "non-positive dimension")) ∧
    ((d.r.take 13).getD 10 0 = 0 → (d.r.take 13).getD 11 0 = 0 →
      0 < wrapInt 32 (beUint32 ((d.r.take 13).take 4)) →
      0 < wrapInt 32 (beUint32 (((d.r.take 13).drop 4).take 4)) →
      2 ^ (intBits - 1) ≤ 8 * (wrapInt 32 (beUint32 ((d.r.take 13).take 4)) *
        wrapInt 32 (beUint32 (((d.r.take 13).drop 4).take 4))) →
      parseIHDR intBits d 13 = .error (.unsupportedError "dimension overflow")) ∧
    ((d.r.take 13).getD 10 0 = 0 → (d.r.take 13).getD 11 0 = 0 →
      0 < wrapInt 32 (beUint32 ((d.r.take 13).take 4)) →
      0 < wrapInt 32 (beUint32 (((d.r.take 13).drop 4).take 4)) →
      8 * (wrapInt 32 (beUint32 ((d.r.take 13).take 4)) *
        wrapInt 32 (beUint32 (((d.r.take 13).drop 4).take 4))) < 2 ^ (intBits - 1) →
      ¬((d.r.take 13).getD 8 0 = 8 ∧ (d.r.take 13).getD 9 0 = 6) →
      parseIHDR intBits d 13 = .error (.unsupportedError
        s!"bit depth {(d.r.take 13).getD 8 0}, color type {(d.r.take 13).getD 9 0}")) := by
  obtain ⟨hwlo, hwhi⟩ := wrapInt32_range (beUint32 ((d.r.take 13).take 4))
  obtain ⟨hhlo, hhhi⟩ := wrapInt32_range (beUint32 (((d.r.take 13).drop 4).take 4))
  refine ⟨?_, ?_, ?_, ?_, ?_, ?_⟩
  · intro hlen
    unfold parseIHDR
    rw [if_pos hlen]
  · intro hc
    rw [parseIHDR_eq h13, if_pos hc]
  · intro hc hf
    rw [parseIHDR_eq h13, if_neg (by simpa using hc), if_pos hf]
  · intro hc hf hdim
    rw [parseIHDR_eq h13, if_neg (by simpa using hc), if_neg (by simpa using hf), if_pos hdim]
  · intro hc hf hw hh hof
    rw [parseIHDR_eq h13, if_neg (by simpa using hc), if_neg (by simpa using hf),
      if_neg (by omega)]
    have hiff := dimension_overflow_iff intBits hbits _ _ hw hwhi hh hhhi
    by_cases hc1 : wrapInt 32 (beUint32 ((d.r.take 13).take 4)) *
        wrapInt 32 (beUint32 (((d.r.take 13).drop 4).take 4)) =
      wrapInt intBits (wrapInt 32 (beUint32 ((d.r.take 13).take 4)) *
        wrapInt 32 (beUint32 (((d.r.take 13).drop 4).take 4)))
    · rw [if_neg (by simpa using hc1)]
      have hc2 : wrapInt intBits (wrapInt 32 (beUint32 ((d.r.take 13).take 4)) *
          wrapInt 32 (beUint32 (((d.r.take 13).drop 4).take 4))) ≠
        Int.tdiv (wrapInt intBits (wrapInt intBits (wrapInt 32 (beUint32 ((d.r.take 13).take 4)) *
          wrapInt 32 (beUint32 (((d.r.take 13).drop 4).take 4))) * 8)) 8 := by
        intro hc2
        exact absurd (hiff.mp ⟨hc1, hc2⟩) (by omega)
      rw [if_pos hc2]
    · rw [if_pos (by simpa using hc1)]
  · intro hc hf hw hh hof hcb
    rw [parseIHDR_eq h13, if_neg (by simpa using hc), if_neg (by simpa using hf),
      if_neg (by omega)]
    have hiff := dimension_overflow_iff intBits hbits _ _ hw hwhi hh hhhi
    obtain ⟨hc1, hc2⟩ := hiff.mpr hof
    rw [if_neg (by simpa using hc1), if_neg (by simpa using hc2)]
    have hcbv : (match (d.r.take 13).getD 8 0, (d.r.take 13).getD 9 0 with
        | 8, 6 => cbTCA8
        | _, _ => cbInvalid) = cbInvalid := by
      split
      · rename_i h8 h9
        exact absurd ⟨h8, h9⟩ hcb
      · rfl
    rw [if_pos hcbv]

/-- Witness for C5: a 13-byte header payload declaring compression method 1
is rejected with the unsupported-feature error "compression method". -/
theorem C5_parseIHDR_checks_witness :
    parseIHDR 64 { r := [0, 0, 0, 1, 0, 0, 0, 1, 8, 6, 1, 0, 0] } 13 =
      .error (.unsupportedError "compression method") :=
  (C5_parseIHDR_checks 64 { r := [0, 0, 0, 1, 0, 0, 0, 1, 8, 6, 1, 0, 0] } 13
    (Or.inr rfl) (by decide)).2.1 (by decide)

/-! ## C2: the encode/decode round trip -/

theorem range_map_getD (f : Nat → Nat) (n i : Nat) (hi : i < n) :
    ((List.range n).map f).getD i 0 = f i := by
  rw [List.getD_eq_getElem?_getD, List.getElem?_map, List.getElem?_range hi]
  rfl

theorem getD_lt_256 {l : List Nat} {i : Nat} (hb : ∀ x ∈ l, x < 256) (hi : i < l.length) :
    l.getD i 0 < 256 := by
  rw [List.getD_eq_getElem?_getD, List.getElem?_eq_getElem hi]
  exact hb _ (List.getElem_mem hi)

theorem list_eq_of_getD (a b : List Nat) (hlen : a.length = b.length)
    (h : ∀ i, i < a.length → a.getD i 0 = b.getD i 0) : a = b := by
  apply List.ext_getElem hlen
  intro i h1 h2
  have hg := h i h1
  rwa [List.getD_eq_getElem?_getD, List.getElem?_eq_getElem h1,
    List.getD_eq_getElem?_getD, List.getElem?_eq_getElem h2] at hg

theorem applyFilter_length (bpp ft : Nat) (row prev : List Nat) :
    (applyFilter bpp ft row prev).length = row.length := by
  simp [applyFilter]

theorem applyFilter_getD_none (bpp : Nat) (row prev : List Nat) (i : Nat)
    (hi : i < row.length) : (applyFilter bpp 0 row prev).getD i 0 = row.getD i 0 := by
  unfold applyFilter
  rw [range_map_getD _ _ _ hi]

theorem applyFilter_getD_sub (bpp : Nat) (row prev : List Nat) (i : Nat)
    (hi : i < row.length) :
    (applyFilter bpp 1 row prev).getD i 0 =
      if i < bpp then row.getD i 0 else sub256 (row.getD i 0) (row.getD (i - bpp) 0) := by
  unfold applyFilter
  rw [range_map_getD _ _ _ hi]

theorem applyFilter_getD_up (bpp : Nat) (row prev : List Nat) (i : Nat)
    (hi : i < row.length) :
    (applyFilter bpp 2 row prev).getD i 0 = sub256 (row.getD i 0) (prev.getD i 0) := by
  unfold applyFilter
  rw [range_map_getD _ _ _ hi]

theorem applyFilter_getD_avg (bpp : Nat) (row prev : List Nat) (i : Nat)
    (hi : i < row.length) :
    (applyFilter bpp 3 row prev).getD i 0 =
      if i < bpp then sub256 (row.getD i 0) (prev.getD i 0 / 2)
      else sub256 (row.getD i 0) ((row.getD (i - bpp) 0 + prev.getD i 0) / 2 % 256) := by
  unfold applyFilter
  rw [range_map_getD _ _ _ hi]

theorem applyFilter_getD_paeth (bpp : Nat) (row prev : List Nat) (i : Nat)
    (hi : i < row.length) :
    (applyFilter bpp 4 row prev).getD i 0 =
      sub256 (row.getD i 0)
        (paethPredictor (if i < bpp then 0 else row.getD (i - bpp) 0) (prev.getD i 0)
          (if i < bpp then 0 else prev.getD (i - bpp) 0)) := by
  unfold applyFilter
  rw [range_map_getD _ _ _ hi]

/-- Wraparound subtraction followed by wraparound addition of the same value
restores a byte. -/
theorem sub256_add_cancel (x q : Nat) (hx : x < 256) :
    (sub256 x q + q % 256) % 256 = x := by
  unfold sub256
  omega

theorem filterSub_length (bpp : Nat) (cdat : List Nat) :
    (filterSub bpp cdat).length = cdat.length := rowLoop_length _ _ _ _

theorem filterUp_length (cdat pdat : List Nat) :
    (filterUp cdat pdat).length = cdat.length := rowLoop_length _ _ _ _

theorem filterAverage_length (bpp : Nat) (cdat pdat : List Nat) :
    (filterAverage bpp cdat pdat).length = cdat.length := by
  unfold filterAverage
  simp only
  rw [rowLoop_length, rowLoop_length]

theorem filterPaeth_length (cdat pdat : List Nat) (bpp : Nat) :
    (filterPaeth cdat pdat bpp).length = cdat.length := rowLoop_length _ _ _ _

/-- Sub round trip: reconstruction is a left inverse of filter application. -/
theorem filterSub_applyFilter (bpp : Nat) (hbpp : 0 < bpp) (row prev : List Nat)
    (hbrow : ∀ x ∈ row, x < 256) :
    filterSub bpp (applyFilter bpp 1 row prev) = row := by
  have hlen : (filterSub bpp (applyFilter bpp 1 row prev)).length = row.length := by
    rw [filterSub_length, applyFilter_length]
  have hkey : ∀ i, i < row.length →
      (filterSub bpp (applyFilter bpp 1 row prev)).getD i 0 = row.getD i 0 := by
    intro i
    induction i using Nat.strong_induction_on with
    | _ i ih =>
      intro hi
      have hie : i < (applyFilter bpp 1 row prev).length := by rw [applyFilter_length]; exact hi
      rw [filterSub_getD bpp _ i hbpp hie]
      by_cases hlt : i < bpp
      · rw [if_pos hlt, applyFilter_getD_sub bpp row prev i hi, if_pos hlt]
      · rw [if_neg hlt, applyFilter_getD_sub bpp row prev i hi, if_neg hlt]
        rw [ih (i - bpp) (by omega) (by omega)]
        have hx := getD_lt_256 hbrow hi
        have : row.getD (i - bpp) 0 % 256 = row.getD (i - bpp) 0 % 256 := rfl
        unfold sub256
        omega
  exact list_eq_of_getD _ _ (by rw [hlen]) (by rw [hlen] at *; exact hkey)

/-- Up round trip. -/
theorem filterUp_applyFilter (row prev : List Nat) (hlen : prev.length = row.length)
    (hbrow : ∀ x ∈ row, x < 256) :
    filterUp (applyFilter 4 2 row prev) prev = row := by
  have hL : (filterUp (applyFilter 4 2 row prev) prev).length = row.length := by
    rw [filterUp_length, applyFilter_length]
  apply list_eq_of_getD _ _ (by rw [hL])
  rw [hL]
  intro i hi
  rw [filterUp_getD _ _ i (by rw [applyFilter_length]; exact hi) (by omega)]
  rw [applyFilter_getD_up 4 row prev i hi]
  have hx := getD_lt_256 hbrow hi
  unfold sub256
  omega

/-- Average round trip. -/
theorem filterAverage_applyFilter (bpp : Nat) (hbpp : 0 < bpp) (row prev : List Nat)
    (hlen : prev.length = row.length) (hbrow : ∀ x ∈ row, x < 256) :
    filterAverage bpp (applyFilter bpp 3 row prev) prev = row := by
  have hL : (filterAverage bpp (applyFilter bpp 3 row prev) prev).length = row.length := by
    rw [filterAverage_length, applyFilter_length]
  have hkey : ∀ i, i < row.length →
      (filterAverage bpp (applyFilter bpp 3 row prev) prev).getD i 0 = row.getD i 0 := by
    intro i
    induction i using Nat.strong_induction_on with
    | _ i ih =>
      intro hi
      have hie : i < (applyFilter bpp 3 row prev).length := by rw [applyFilter_length]; exact hi
      rw [filterAverage_getD bpp _ prev i hbpp hie]
      have hx := getD_lt_256 hbrow hi
      by_cases hlt : i < bpp
      · rw [if_pos hlt, applyFilter_getD_avg bpp row prev i hi, if_pos hlt]
        unfold sub256
        omega
      · rw [if_neg hlt, applyFilter_getD_avg bpp row prev i hi, if_neg hlt]
        rw [ih (i - bpp) (by omega) (by omega)]
        unfold sub256
        omega
  exact list_eq_of_getD _ _ hL (by rw [hL]; exact hkey)

/-- Paeth round trip. -/
theorem filterPaeth_applyFilter (bpp : Nat) (hbpp : 0 < bpp) (row prev : List Nat)
    (hbrow : ∀ x ∈ row, x < 256) :
    filterPaeth (applyFilter bpp 4 row prev) prev bpp = row := by
  have hL : (filterPaeth (applyFilter bpp 4 row prev) prev bpp).length = row.length := by
    rw [filterPaeth_length, applyFilter_length]
  have hkey : ∀ i, i < row.length →
      (filterPaeth (applyFilter bpp 4 row prev) prev bpp).getD i 0 = row.getD i 0 := by
    intro i
    induction i using Nat.strong_induction_on with
    | _ i ih =>
      intro hi
      have hie : i < (applyFilter bpp 4 row prev).length := by rw [applyFilter_length]; exact hi
      rw [filterPaeth_getD _ prev bpp i hbpp hie]
      have hx := getD_lt_256 hbrow hi
      by_cases hlt : i < bpp
      · simp only [if_pos hlt]
        rw [applyFilter_getD_paeth bpp row prev i hi]
        simp only [if_pos hlt]
        unfold sub256
        omega
      · simp only [if_neg hlt]
        rw [ih (i - bpp) (by omega) (by omega)]
        rw [applyFilter_getD_paeth bpp row prev i hi]
        simp only [if_neg hlt]
        unfold sub256
        omega
  exact list_eq_of_getD _ _ hL (by rw [hL]; exact hkey)

/-- None round trip. -/
theorem applyFilter_none_id (bpp : Nat) (row prev : List Nat) :
    applyFilter bpp 0 row prev = row := by
  have hL : (applyFilter bpp 0 row prev).length = row.length := applyFilter_length _ _ _ _
  apply list_eq_of_getD _ _ hL
  rw [hL]
  intro i hi
  exact applyFilter_getD_none bpp row prev i hi

/-- Round trip of one scanline through any of the five filters: decoding the
filter tag `t` applied by the encoder reproduces the original row bytes. -/
theorem reconRow_applyFilter (t : Nat) (ht : t < 5) (row prev : List Nat)
    (hlen : prev.length = row.length) (hbrow : ∀ x ∈ row, x < 256) :
    reconRow 4 t (applyFilter 4 t row prev) prev = .ok row := by
  match t, ht with
  | 0, _ => rw [reconRow, applyFilter_none_id]
  | 1, _ => rw [reconRow, filterSub_applyFilter 4 (by omega) row prev hbrow]
  | 2, _ => rw [reconRow, filterUp_applyFilter row prev hlen hbrow]
  | 3, _ => rw [reconRow, filterAverage_applyFilter 4 (by omega) row prev hlen hbrow]
  | 4, _ => rw [reconRow, filterPaeth_applyFilter 4 (by omega) row prev hbrow]

/-- Decoding the scanline stream produced by the spec-modelled encoder yields
back the original rows, for any per-row filter choice, from any decoder state
whose previous-row buffer holds the row above and whose stream continues with
the encoded scanlines. -/
theorem decodeImage_encodeScanlines (w : Nat) (rows : List (List Nat)) (tags : List Nat)
    (prev rest : List Nat) (d : Decoder)
    (hbpp : d.bytesPerPixel = 4)
    (hcr : d.cr.length = 1 + 4 * w)
    (hprlen : d.pr.length = 1 + 4 * w)
    (hprdata : d.pr.drop 1 = prev)
    (hz : d.zstream = encodeScanlines 4 rows tags prev ++ rest)
    (hy : d.y + rows.length ≤ d.height)
    (htlen : tags.length = rows.length)
    (ht5 : ∀ t ∈ tags, t < 5)
    (hrows : ∀ row ∈ rows, row.length = 4 * w ∧ ∀ x ∈ row, x < 256) :
    decodeImage d rows.length = .ok rows := by
  induction rows generalizing tags prev rest d with
  | nil => rfl
  | cons row rs ih =>
    match tags, htlen with
    | t :: ts, htlen =>
      obtain ⟨hrlen, hrb⟩ := hrows row (by simp)
      have hprev_len : prev.length = 4 * w := by
        rw [← hprdata]
        simp [hprlen]
      have hsl : (t :: applyFilter 4 t row prev).length = 1 + 4 * w := by
        simp [applyFilter_length, hrlen]
        omega
      have hread : readFull ((t :: applyFilter 4 t row prev) ++
            (encodeScanlines 4 rs ts row ++ rest)) d.cr.length =
          .ok (t :: applyFilter 4 t row prev, encodeScanlines 4 rs ts row ++ rest) := by
        rw [hcr, ← hsl, readFull_of_le (by simp), List.take_left, List.drop_left]
      rw [show (row :: rs).length = rs.length + 1 from rfl]
      simp only [decodeImage]
      unfold Decoder.decodeRow
      rw [if_neg (by simp only [List.length_cons] at hy; omega)]
      rw [hz, show encodeScanlines 4 (row :: rs) (t :: ts) prev =
          (t :: applyFilter 4 t row prev) ++ encodeScanlines 4 rs ts row from rfl,
        List.append_assoc, hread]
      simp only [List.getD_cons_zero, List.drop_succ_cons, List.drop_zero, hbpp, hprdata]
      rw [reconRow_applyFilter t (ht5 t (by simp)) row prev (by omega) hrb]
      simp only []
      rw [ih ts row rest
        { zstream := encodeScanlines 4 rs ts row ++ rest, bytesPerPixel := 4,
          height := d.height, cr := d.pr, pr := t :: row, y := d.y + 1 }
        rfl (by simpa using hprlen) (by simp [hrlen]; omega) (by simp) rfl
        (by simp only [List.length_cons] at hy; simp; omega)
        (by simpa using htlen) (fun t' ht' => ht5 t' (by simp [ht']))
        (fun r hr => hrows r (by simp [hr]))]

/-- C2: the round trip — for every image of the supported profile (positive
dimensions, rows of `4*width` bytes each, bytes below 256) and every per-row
filter selection made by the encoder (the compression-effort level only
parametrises the external lossless compression transform, which does not
affect decodability), decoding the scanline stream produced by the
spec-modelled Row Encoder yields exactly the original rows. -/
theorem C2_encode_decode_roundtrip (w h : Nat) (rows : List (List Nat)) (tags : List Nat)
    (hw : 0 < w) (hh : rows.length = h)
    (htlen : tags.length = rows.length) (ht5 : ∀ t ∈ tags, t < 5)
    (hrows : ∀ row ∈ rows, row.length = 4 * w ∧ ∀ x ∈ row, x < 256) :
    decodeImage
      (mkRowDecoder w h (encodeScanlines 4 rows tags (List.replicate (4 * w) 0))) h
      = .ok rows := by
  subst hh
  have h78 : (32 * w + 7) / 8 = 4 * w := by omega
  apply decodeImage_encodeScanlines w rows tags (List.replicate (4 * w) 0) []
  · rfl
  · simp [mkRowDecoder, h78]
  · simp [mkRowDecoder, h78]
  · simp [mkRowDecoder, h78, List.drop_replicate]
  · simp [mkRowDecoder]
  · simp [mkRowDecoder]
  · exact htlen
  · exact ht5
  · exact hrows

/-- Witness for C2: a 1×2 image whose two rows are encoded with the Paeth and
Average filters round-trips. -/
theorem C2_encode_decode_roundtrip_witness :
    decodeImage
      (mkRowDecoder 1 2 (encodeScanlines 4 [[1, 2, 3, 255], [4, 5, 6, 7]] [4, 3]
        (List.replicate (4 * 1) 0))) 2
      = .ok [[1, 2, 3, 255], [4, 5, 6, 7]] :=
  C2_encode_decode_roundtrip 1 2 [[1, 2, 3, 255], [4, 5, 6, 7]] [4, 3] (by decide) (by decide)
    (by decide) (by decide) (by decide)

end Png
